import Mathlib

/-!
Verification of the `gemini-lab` repository's two scripts
(`scripts/cc_lookup.py`, the command resolver, and
`scripts/migrate_claude_integrated.py`, the migration tool) against the
repository's specification.

Strings manipulated character-by-character by the Python code are modelled as
`List Char`; opaque path/identifier strings are modelled as `String`.
Filesystem reads and JSON loads are modelled by oracle functions in a
`LookupFS`/`LookupEnv` record (the code only ever reads them).  Unicode-only
behaviours (`str.lower`, `\w` beyond ASCII) are modelled with their ASCII
semantics.
-/

/-! ## Python string primitives (shared by both scripts) -/

/-- Fuel-bounded scan for `pyReplace`; every step consumes at least one
character of the subject, so fuel `l.length` makes the bound immaterial. -/
def pyReplaceFuel (pat rep : List Char) : Nat → List Char → List Char
  | 0, l => l
  | _ + 1, [] => []
  | n + 1, c :: rest =>
    if pat.isPrefixOf (c :: rest) ∧ pat ≠ [] then
      rep ++ pyReplaceFuel pat rep n (rest.drop (pat.length - 1))
    else
      c :: pyReplaceFuel pat rep n rest

/-- Python `s.replace(pat, rep)`: replace non-overlapping occurrences of
`pat` left to right.  (The scripts only call it with nonempty patterns;
an empty pattern is modelled as the identity.) -/
def pyReplace (pat rep : List Char) (l : List Char) : List Char :=
  pyReplaceFuel pat rep l.length l

/-- Python `s.split(sep)` for a single-character separator (unlimited). -/
def splitOnChar (sep : Char) : List Char → List (List Char)
  | [] => [[]]
  | c :: rest =>
    match splitOnChar sep rest with
    | [] => [[]]
    | h :: t => if c = sep then [] :: h :: t else (c :: h) :: t

/-- Python `sep.join(parts)` for a single-character separator. -/
def joinWith (sep : Char) : List (List Char) → List Char
  | [] => []
  | x :: xs =>
    x ++ (match xs with
          | [] => []
          | _ :: _ => sep :: joinWith sep xs)

/-- Locate the first occurrence of `sep` in a list: returns the part before
it and the part after it. -/
def splitFirst (sep : List Char) : List Char → Option (List Char × List Char)
  | [] => none
  | c :: rest =>
    if sep.isPrefixOf (c :: rest) then some ([], (c :: rest).drop sep.length)
    else
      match splitFirst sep rest with
      | some (a, b) => some (c :: a, b)
      | none => none

/-- Python `s.split(sep, maxsplit)` for a nonempty multi-character
separator. -/
def pySplitSep (sep : List Char) : Nat → List Char → List (List Char)
  | 0, l => [l]
  | n + 1, l =>
    match splitFirst sep l with
    | none => [l]
    | some (a, b) => a :: pySplitSep sep n b

/-- Python `s.split(sep)` with no maxsplit: a fuel of `l.length` always
suffices because every successful split consumes at least one character. -/
def pySplitAll (sep : List Char) (l : List Char) : List (List Char) :=
  pySplitSep sep l.length l

/-- Whitespace characters recognised by Python `str.strip()` (ASCII part). -/
def isPySpace (c : Char) : Bool :=
  c = ' ' || c = '\t' || c = '\n' || c = '\r' || c = '\x0b' || c = '\x0c'

/-- Python `s.strip()` (ASCII whitespace). -/
def pyStrip (l : List Char) : List Char :=
  ((l.dropWhile isPySpace).reverse.dropWhile isPySpace).reverse

/-- Python `s.strip(chars)` for a character predicate. -/
def pyStripChars (p : Char → Bool) (l : List Char) : List Char :=
  ((l.dropWhile p).reverse.dropWhile p).reverse

/-- Python `s.splitlines()` restricted to `\n` terminators: a trailing
newline produces no empty final element, and an empty string has no lines. -/
def pySplitlines (l : List Char) : List (List Char) :=
  if l = [] then []
  else
    let parts := splitOnChar '\n' l
    if parts.getLast? = some [] then parts.dropLast else parts

/-- Worker for `dedupFirst`, keeping a list of already-seen elements. -/
def dedupFirstAux {α : Type} [DecidableEq α] (seen : List α) : List α → List α
  | [] => []
  | x :: xs =>
    if x ∈ seen then dedupFirstAux seen xs
    else x :: dedupFirstAux (x :: seen) xs

/-- Order-preserving de-duplication keeping the first occurrence of each
element: the model of both `list(dict.fromkeys(xs))` and `list(set(xs))`
(for the latter only the resulting membership matters to the claims;
Python's set iteration order is unspecified). -/
def dedupFirst {α : Type} [DecidableEq α] (l : List α) : List α :=
  dedupFirstAux [] l

/-! ## `cc_lookup.py`: candidate-name normalizer (`normalize_command_name`) -/

/-- The `.md` command-file extension. -/
def mdExt : List Char := ".md".toList

/-- `normalize_command_name` from `cc_lookup.py`: expand a command name into
the ordered candidate relative paths, de-duplicated first-occurrence-first. -/
def normalize_command_name (cmd_name : List Char) : List (List Char) :=
  let candidates :=
    (if cmd_name.contains ':' then
        [joinWith '/' (splitOnChar ':' cmd_name) ++ mdExt]
     else [])
    ++ (if cmd_name.contains '/' then [cmd_name ++ mdExt] else [])
    ++ [cmd_name ++ mdExt]
    ++ (if mdExt.isSuffixOf cmd_name then [cmd_name] else [])
  dedupFirst candidates

/-! ## Basic lemmas about the string primitives -/

theorem splitOnChar_ne_nil (sep : Char) (l : List Char) :
    splitOnChar sep l ≠ [] := by
  cases l with
  | nil => simp [splitOnChar]
  | cons c rest =>
    unfold splitOnChar
    split
    · simp
    · split <;> simp

/-- Splitting on a character and re-joining with another character is the
same as replacing every occurrence of the former by the latter. -/
theorem joinWith_splitOnChar (a b : Char) (l : List Char) :
    joinWith b (splitOnChar a l) = l.map (fun c => if c = a then b else c) := by
  induction l with
  | nil => simp [splitOnChar, joinWith]
  | cons c rest ih =>
    simp only [splitOnChar]
    cases h : splitOnChar a rest with
    | nil => exact absurd h (splitOnChar_ne_nil a rest)
    | cons hd tl =>
      rw [h] at ih
      by_cases hc : c = a
      · simp only [hc, if_pos rfl, joinWith, List.nil_append, List.map_cons,
          if_pos rfl]
        exact congrArg (b :: ·) ih
      · simp only [if_neg hc, List.map_cons, if_neg hc]
        cases tl with
        | nil =>
          simp only [joinWith] at ih ⊢
          simp only [List.append_nil] at ih ⊢
          exact congrArg (c :: ·) ih
        | cons x xs =>
          simp only [joinWith] at ih ⊢
          exact congrArg (c :: ·) ih

theorem mem_dedupFirstAux {α : Type} [DecidableEq α] (l : List α) :
    ∀ (seen : List α) (x : α), x ∈ dedupFirstAux seen l → x ∈ l := by
  induction l with
  | nil => intro seen x h; simp [dedupFirstAux] at h
  | cons y ys ih =>
    intro seen x h
    simp only [dedupFirstAux] at h
    split at h
    · exact List.mem_cons_of_mem _ (ih _ _ h)
    · rcases List.mem_cons.mp h with rfl | hx
      · exact List.mem_cons_self _ _
      · exact List.mem_cons_of_mem _ (ih _ _ hx)

theorem mem_dedupFirst {α : Type} [DecidableEq α] (l : List α) (x : α) :
    x ∈ dedupFirst l → x ∈ l :=
  mem_dedupFirstAux l [] x

theorem dedupFirstAux_nodup_and {α : Type} [DecidableEq α] (l : List α) :
    ∀ seen : List α, (dedupFirstAux seen l).Nodup ∧
      ∀ x ∈ dedupFirstAux seen l, x ∉ seen := by
  induction l with
  | nil => intro seen; simp [dedupFirstAux]
  | cons y ys ih =>
    intro seen
    simp only [dedupFirstAux]
    split
    · exact ih seen
    · obtain ⟨hnd, hout⟩ := ih (y :: seen)
      refine ⟨List.nodup_cons.mpr ⟨fun hy => ?_, hnd⟩, ?_⟩
      · exact hout y hy (List.mem_cons_self _ _)
      · intro x hx
        rcases List.mem_cons.mp hx with rfl | hx'
        · assumption
        · exact fun hs => hout x hx' (List.mem_cons_of_mem _ hs)

theorem dedupFirst_nodup {α : Type} [DecidableEq α] (l : List α) :
    (dedupFirst l).Nodup :=
  (dedupFirstAux_nodup_and l []).1

/-- Replacing a pattern by itself is the identity (the key fact behind the
migration tool's no-op "escaping"). -/
theorem pyReplaceFuel_self (p : List Char) :
    ∀ (n : Nat) (l : List Char), l.length ≤ n → pyReplaceFuel p p n l = l := by
  intro n
  induction n with
  | zero =>
    intro l h
    interval_cases h' : l.length
    · exact rfl
  | succ n ih =>
    intro l h
    cases l with
    | nil => rfl
    | cons c rest =>
      simp only [pyReplaceFuel]
      split
      · next hcond =>
        obtain ⟨hpre, hne⟩ := hcond
        have hplen : 1 ≤ p.length := by
          cases p with
          | nil => exact absurd rfl hne
          | cons a as => simp
        have hprefix : p <+: (c :: rest) :=
          (List.isPrefixOf_iff_prefix).mp hpre
        have happ : p ++ (c :: rest).drop p.length = c :: rest :=
          (List.prefix_iff_eq_append).mp hprefix
        have hd : rest.drop (p.length - 1) = (c :: rest).drop p.length := by
          have hpl : p.length = (p.length - 1) + 1 := by omega
          conv_rhs => rw [hpl]
          rw [List.drop_succ_cons]
        have hlen : ((c :: rest).drop p.length).length ≤ n := by
          simp only [List.length_drop, List.length_cons] at *
          omega
        rw [hd, ih _ hlen, happ]
      · next =>
        have : rest.length ≤ n := by
          simp only [List.length_cons] at h; omega
        rw [ih rest this]

theorem pyReplace_self (p l : List Char) : pyReplace p p l = l :=
  pyReplaceFuel_self p l.length l le_rfl

/-! ## Evaluation lemmas for `dedupFirst` on small symbolic lists -/

theorem dedupFirst_singleton {α : Type} [DecidableEq α] (a : α) :
    dedupFirst [a] = [a] := by
  simp [dedupFirst, dedupFirstAux]

theorem dedupFirst_pair {α : Type} [DecidableEq α] (a b : α) (h : b ≠ a) :
    dedupFirst [a, b] = [a, b] := by
  simp [dedupFirst, dedupFirstAux, h]

theorem dedupFirst_pair_same {α : Type} [DecidableEq α] (a : α) :
    dedupFirst [a, a] = [a] := by
  simp [dedupFirst, dedupFirstAux]

theorem dedupFirst_aab {α : Type} [DecidableEq α] (a b : α) (h : b ≠ a) :
    dedupFirst [a, a, b] = [a, b] := by
  simp [dedupFirst, dedupFirstAux, h]

theorem dedupFirst_abc {α : Type} [DecidableEq α] (a b c : α)
    (hba : b ≠ a) (hca : c ≠ a) (hcb : c ≠ b) :
    dedupFirst [a, b, c] = [a, b, c] := by
  simp [dedupFirst, dedupFirstAux, hba, hca, hcb]

theorem dedupFirst_abbc {α : Type} [DecidableEq α] (a b c : α)
    (hba : b ≠ a) (hca : c ≠ a) (hcb : c ≠ b) :
    dedupFirst [a, b, b, c] = [a, b, c] := by
  simp [dedupFirst, dedupFirstAux, hba, hca, hcb]

theorem dedupFirst_abb {α : Type} [DecidableEq α] (a b : α) (h : b ≠ a) :
    dedupFirst [a, b, b] = [a, b] := by
  simp [dedupFirst, dedupFirstAux, h]

theorem dedupFirst_head? {α : Type} [DecidableEq α] (a : α) (l : List α) :
    (dedupFirst (a :: l)).head? = some a := by
  simp [dedupFirst, dedupFirstAux]

/-! ## The colon-to-slash rewriting performed by the normalizer -/

/-- The spec's description of the first candidate: the command name with
every colon replaced by a slash. -/
def colonToSlash (s : List Char) : List Char :=
  s.map (fun c => if c = ':' then '/' else c)

theorem colonToSlash_ne (s : List Char) (h : ':' ∈ s) :
    colonToSlash s ≠ s := by
  induction s with
  | nil => cases h
  | cons c rest ih =>
    by_cases hc : c = ':'
    · subst hc
      simp [colonToSlash]
    · simp only [colonToSlash, List.map_cons, if_neg hc]
      intro he
      have h2 : colonToSlash rest = rest := (List.cons.injEq _ _ _ _ ▸ he).2
      have h3 : ':' ∈ rest := by
        rcases List.mem_cons.mp h with h' | h'
        · exact absurd h'.symm hc
        · exact h'
      exact ih h3 h2

example : ("jira:my-issues".toList.contains ':') = true := by decide
example : (mdExt.isSuffixOf "a:b.md".toList) = true := by decide
example : (normalize_command_name "a:b.md".toList).length = 3 := by decide

theorem length_colonToSlash_append_mdExt (s : List Char) :
    (joinWith '/' (splitOnChar ':' s) ++ mdExt).length = s.length + 3 := by
  rw [joinWith_splitOnChar]
  simp [mdExt]

/-- Claim C5: for every command name containing a colon, the first candidate
produced by `normalize_command_name` is the name with every colon replaced
by a slash, followed by the `.md` extension. -/
theorem normalize_command_name_colon_head (s : List Char)
    (h : s.contains ':' = true) :
    (normalize_command_name s).head? = some (colonToSlash s ++ mdExt) := by
  unfold normalize_command_name
  simp only [h, if_true, List.cons_append, List.nil_append]
  rw [dedupFirst_head?, joinWith_splitOnChar]
  rfl

/-- Witness for C5 at the concrete name `jira:my-issues`. -/
theorem normalize_command_name_colon_head_witness :
    ("jira:my-issues".toList.contains ':' = true) ∧
    (normalize_command_name "jira:my-issues".toList).head? =
      some (colonToSlash "jira:my-issues".toList ++ mdExt) :=
  ⟨by decide, normalize_command_name_colon_head _ (by decide)⟩

/-- Claim C6 (amended): the normalizer's candidate list never contains
duplicates, and its length is at most 3 — reaching 3 exactly for a name
that contains a colon and ends in the literal `.md` extension, at most 2
otherwise.  (The slash rule and the direct rule always produce the same
candidate `name + ".md"`, so the spec's bound of 4 is never attained.) -/
theorem normalize_command_name_shape (s : List Char) :
    (normalize_command_name s).Nodup ∧
    (normalize_command_name s).length ≤ 3 ∧
    (s.contains ':' = true → mdExt.isSuffixOf s = true →
      (normalize_command_name s).length = 3) ∧
    (¬(s.contains ':' = true ∧ mdExt.isSuffixOf s = true) →
      (normalize_command_name s).length ≤ 2) := by
  have hlenb : (s ++ mdExt).length = s.length + 3 := by simp [mdExt]
  have hsb : s ≠ s ++ mdExt := by
    intro he
    have h' := congrArg List.length he
    rw [hlenb] at h'
    omega
  have hsc1 : s ≠ joinWith '/' (splitOnChar ':' s) ++ mdExt := by
    intro he
    have h' := congrArg List.length he
    rw [length_colonToSlash_append_mdExt] at h'
    omega
  have hbc1 : s.contains ':' = true →
      s ++ mdExt ≠ joinWith '/' (splitOnChar ':' s) ++ mdExt := by
    intro hc he
    have hmemc : ':' ∈ s := by simpa using hc
    have h1 : s = joinWith '/' (splitOnChar ':' s) := List.append_cancel_right he
    rw [joinWith_splitOnChar] at h1
    exact colonToSlash_ne s hmemc h1.symm
  have key3 : s.contains ':' = true → mdExt.isSuffixOf s = true →
      (normalize_command_name s).length = 3 := by
    intro hc hm
    cases hslash : s.contains '/' <;>
      simp only [normalize_command_name, hc, hm, hslash, if_true,
        Bool.false_eq_true, if_false, List.cons_append, List.nil_append,
        List.append_nil]
    · rw [dedupFirst_abc _ _ _ (hbc1 hc) hsc1 hsb]
      rfl
    · rw [dedupFirst_abbc _ _ _ (hbc1 hc) hsc1 hsb]
      rfl
  have key2 : ¬(s.contains ':' = true ∧ mdExt.isSuffixOf s = true) →
      (normalize_command_name s).length ≤ 2 := by
    intro hnot
    cases hc : s.contains ':' <;> cases hm : mdExt.isSuffixOf s <;>
      cases hslash : s.contains '/' <;>
      simp only [normalize_command_name, hc, hm, hslash, if_true,
        Bool.false_eq_true, if_false, List.cons_append, List.nil_append,
        List.append_nil]
    · rw [dedupFirst_singleton]
      simp
    · rw [dedupFirst_pair_same]
      simp
    · rw [dedupFirst_pair _ _ hsb]
      simp
    · rw [dedupFirst_aab _ _ hsb]
      simp
    · rw [dedupFirst_pair _ _ (hbc1 hc)]
      simp
    · rw [dedupFirst_abb _ _ (hbc1 hc)]
      simp
    · exact absurd ⟨hc, hm⟩ hnot
    · exact absurd ⟨hc, hm⟩ hnot
  refine ⟨dedupFirst_nodup _, ?_, key3, key2⟩
  by_cases hcm : s.contains ':' = true ∧ mdExt.isSuffixOf s = true
  · rw [key3 hcm.1 hcm.2]
  · exact le_trans (key2 hcm) (by omega)

/-- Counterexample to claim C6 as stated: the name `a:b.md` contains colon
notation and ends in the literal `.md` extension, yet the candidate list has
length 3, not 4. -/
theorem normalize_command_name_not_four :
    ("a:b.md".toList.contains ':' = true) ∧
    (mdExt.isSuffixOf "a:b.md".toList = true) ∧
    (normalize_command_name "a:b.md".toList).length ≠ 4 := by
  decide

/-- Witness for the amended C6 at the concrete name `a:b.md`. -/
theorem normalize_command_name_shape_witness :
    (normalize_command_name "a:b.md".toList).Nodup ∧
    (normalize_command_name "a:b.md".toList).length = 3 :=
  ⟨(normalize_command_name_shape _).1,
   (normalize_command_name_shape _).2.2.1 (by decide) (by decide)⟩

/-! ## `migrate_claude_integrated.py`: data model and operations -/

/-- Python's substring test `pat in s`. -/
def isSubstring (pat : List Char) : List Char → Bool
  | [] => pat.isEmpty
  | c :: rest => pat.isPrefixOf (c :: rest) || isSubstring pat rest

/-- The tag-marker line embedded in every generated output file. -/
def IMPORT_TAG : List Char := "# Tags: claude-code-import".toList

/-- Python dict assignment `m[k] = v` on an association list (replace in
place, else append). -/
def assocSet {κ ν : Type} [DecidableEq κ] : List (κ × ν) → κ → ν → List (κ × ν)
  | [], k, v => [(k, v)]
  | (k', v') :: rest, k, v =>
    if k' = k then (k, v) :: rest else (k', v') :: assocSet rest k v

/-- Python `m.get(k, d)` on an association list. -/
def assocGet {κ ν : Type} [DecidableEq κ] (m : List (κ × ν)) (k : κ) (d : ν) : ν :=
  match m.find? (fun p => p.1 = k) with
  | some p => p.2
  | none => d

/-- Python `m[k]` / `k in m` combined: optional lookup. -/
def assocLookup {κ ν : Type} [DecidableEq κ] (m : List (κ × ν)) (k : κ) : Option ν :=
  (m.find? (fun p => p.1 = k)).map Prod.snd

/-- The quote characters stripped from frontmatter values by
`val.strip().strip('"\'')`. -/
def isMetaQuote (c : Char) : Bool := c = '"' || c = '\''

/-- Loop body of the migration tool's `parse_frontmatter`: scan lines after
the opening delimiter, stopping at a closing `---` line, collecting
`key: value` pairs. -/
def parseFrontmatterLines :
    List (List Char) → List (List Char × List Char) → List (List Char × List Char)
  | [], meta => meta
  | line :: rest, meta =>
    if pyStrip line = "---".toList then meta
    else if line.contains ':' then
      match pySplitSep ":".toList 1 line with
      | k :: v :: _ =>
        parseFrontmatterLines rest
          (assocSet meta (pyStrip k) (pyStripChars isMetaQuote (pyStrip v)))
      | _ => parseFrontmatterLines rest meta
    else parseFrontmatterLines rest meta

/-- `parse_frontmatter` from `migrate_claude_integrated.py`. -/
def parse_frontmatter (content : List Char) : List (List Char × List Char) :=
  let meta : List (List Char × List Char) :=
    [("description".toList, "Imported from Claude Code".toList)]
  match pySplitlines content with
  | [] => meta
  | l0 :: rest =>
    if pyStrip l0 ≠ "---".toList then meta
    else parseFrontmatterLines rest meta

/-- `make_toml_content` from `migrate_claude_integrated.py`.  The two
escaping attempts are written exactly as the Python source evaluates them:
in Python source text the literal `'\"'` denotes the one-character string
`"` and `'\"""'` denotes `"""`, so both `replace` calls substitute a
pattern by itself. -/
def make_toml_content (src_content : List Char) (meta : List (List Char × List Char))
    (original_path : String) (scope : String) : List Char :=
  let desc := pyReplace "\"".toList "\"".toList
    (assocGet meta "description".toList "Imported command".toList)
  let prompt_text :=
    if scope = "project" then '@' :: original_path.toList
    else pyReplace "\"\"\"".toList "\"\"\"".toList src_content
  "description = \"".toList ++ desc ++ "\"\n".toList ++ IMPORT_TAG
    ++ "\n# Source: ".toList ++ original_path.toList
    ++ "\n\nprompt = \"\"\"\n".toList ++ prompt_text ++ "\n\"\"\"\n".toList

/-- One file in the migration tool's filesystem model: the directory that
contains it (the `root` seen by `os.walk`), its filename, and its content. -/
structure MFile where
  dir : String
  name : String
  content : List Char
deriving DecidableEq

/-- Filesystem state seen by the migration tool: a flat list of files and a
list of existing directories. -/
structure MigFS where
  files : List MFile
  dirs : List String
deriving DecidableEq

/-- Full path of a file (`os.path.join(root, file)`). -/
def mfilePath (f : MFile) : String := f.dir ++ "/" ++ f.name

/-- `os.path.exists` in the migration model. -/
def mexists (fs : MigFS) (p : String) : Bool :=
  fs.dirs.contains p || fs.files.any (fun f => mfilePath f == p)

/-- Open-and-read of a file by full path; `none` models a raised exception
(the file is absent). -/
def mreadFile (fs : MigFS) (p : String) : Option (List Char) :=
  (fs.files.find? (fun f => mfilePath f == p)).map MFile.content

/-- Is `dir` inside the tree rooted at `target` (inclusive)?  These are
the directories visited by `os.walk(target)`. -/
def underDir (target dir : String) : Bool :=
  dir == target || (target ++ "/").toList.isPrefixOf dir.toList

/-- Files that `cleanup_phase` never deletes. -/
def protected_files : List String := ["cc-command.toml"]

/-- Should `cleanup_phase` delete this file?  It must lie in the walked
tree, end in `.toml`, not be protected, and contain the tag marker. -/
def cleanupDeletes (target_commands_dir : String) (f : MFile) : Bool :=
  underDir target_commands_dir f.dir && ".toml".toList.isSuffixOf f.name.toList &&
    !(protected_files.contains f.name) && isSubstring IMPORT_TAG f.content

/-- `cleanup_phase` from `migrate_claude_integrated.py`: walk the target
tree and delete every `.toml` file containing the import tag, skipping
protected filenames.  (Every file in the model is readable, so the
read-error branch — which only prints and keeps the file — is not
represented.) -/
def cleanup_phase (fs : MigFS) (target_commands_dir : String) : MigFS :=
  if ¬ (mexists fs target_commands_dir = true) then fs
  else
    { fs with files := fs.files.filter (fun f => !(cleanupDeletes target_commands_dir f)) }

/-- The `delete`-strategy branch of `main`: compute the commands directory
under the target root, run the cleanup phase, migrate nothing. -/
def main_delete_strategy (fs : MigFS) (target_root : String) : MigFS :=
  cleanup_phase fs (target_root ++ "/commands")

/-- `migrate_file` from `migrate_claude_integrated.py`. -/
def migrate_file (fs : MigFS) (src_path : String) (category name : String)
    (target_commands_dir strategy scope : String) : MigFS :=
  match mreadFile fs src_path with
  | none => fs
  | some content =>
    let meta := parse_frontmatter content
    let target_dir := target_commands_dir ++ "/" ++ category
    let target_name := String.mk (pyReplace ".md".toList ".toml".toList name.toList)
    let target_path := target_dir ++ "/" ++ target_name
    if mexists fs target_path ∧ (strategy = "ignore" ∨ strategy = "auto") then fs
    else
      let fs1 : MigFS :=
        if fs.dirs.contains target_dir then fs
        else { fs with dirs := fs.dirs ++ [target_dir] }
      let toml_data := make_toml_content content meta src_path scope
      if fs1.files.any (fun f => f.dir == target_dir && f.name == target_name) then
        { fs1 with files := fs1.files.map (fun f =>
            if f.dir = target_dir ∧ f.name = target_name then
              ⟨target_dir, target_name, toml_data⟩ else f) }
      else
        { fs1 with files := fs1.files ++ [⟨target_dir, target_name, toml_data⟩] }

/-- Claim C10: both quote-handling replacements in `make_toml_content` are
identity operations on their input, so the description (in either scope)
and the embedded source content (global scope) appear verbatim — in
particular unescaped — inside the generated quoted fields. -/
theorem make_toml_content_verbatim (src : List Char)
    (meta : List (List Char × List Char)) (path : String) :
    make_toml_content src meta path "global" =
      "description = \"".toList
        ++ assocGet meta "description".toList "Imported command".toList
        ++ "\"\n".toList ++ IMPORT_TAG ++ "\n# Source: ".toList ++ path.toList
        ++ "\n\nprompt = \"\"\"\n".toList ++ src ++ "\n\"\"\"\n".toList ∧
    make_toml_content src meta path "project" =
      "description = \"".toList
        ++ assocGet meta "description".toList "Imported command".toList
        ++ "\"\n".toList ++ IMPORT_TAG ++ "\n# Source: ".toList ++ path.toList
        ++ "\n\nprompt = \"\"\"\n".toList ++ ('@' :: path.toList)
        ++ "\n\"\"\"\n".toList := by
  refine ⟨?_, ?_⟩ <;> simp [make_toml_content, pyReplace_self]

/-- Claim C8: a delete-strategy run of the migration tool keeps exactly
those files that are NOT (in the target commands tree ∧ named `*.toml` ∧
not the protected `cc-command.toml` ∧ containing the tag-marker line);
in particular every other file survives and no new file appears. -/
theorem main_delete_strategy_exact (fs : MigFS) (target_root : String)
    (htgt : mexists fs (target_root ++ "/commands") = true) (f : MFile) :
    f ∈ (main_delete_strategy fs target_root).files ↔
      f ∈ fs.files ∧
      ¬(underDir (target_root ++ "/commands") f.dir = true ∧
        ".toml".toList.isSuffixOf f.name.toList = true ∧
        f.name ≠ "cc-command.toml" ∧
        isSubstring IMPORT_TAG f.content = true) := by
  unfold main_delete_strategy cleanup_phase
  rw [if_neg (by simp [htgt])]
  simp only [List.mem_filter]
  refine and_congr_right fun _ => ?_
  have hd : cleanupDeletes (target_root ++ "/commands") f = true ↔
      (underDir (target_root ++ "/commands") f.dir = true ∧
       ".toml".toList.isSuffixOf f.name.toList = true ∧
       f.name ≠ "cc-command.toml" ∧
       isSubstring IMPORT_TAG f.content = true) := by
    simp [cleanupDeletes, protected_files, and_assoc]
  rw [Bool.not_eq_true', ← hd]
  simp

/-- A concrete target tree used to witness the cleanup claim. -/
def migFSc8 : MigFS :=
  { files :=
      [⟨"/g/commands", "a.toml", IMPORT_TAG ++ "\nbody".toList⟩,
       ⟨"/g/commands", "cc-command.toml", IMPORT_TAG⟩,
       ⟨"/g/commands", "b.toml", "hand written".toList⟩,
       ⟨"/g/commands", "c.txt", IMPORT_TAG⟩],
    dirs := ["/g", "/g/commands"] }

/-- Witness for C8: in the concrete tree the protected marker-bearing file
survives a delete-strategy run. -/
theorem main_delete_strategy_exact_witness :
    (⟨"/g/commands", "cc-command.toml", IMPORT_TAG⟩ : MFile) ∈
      (main_delete_strategy migFSc8 "/g").files :=
  (main_delete_strategy_exact migFSc8 "/g" (by decide) _).mpr (by decide)

/-- `find?` over an append hits the first list's result when it has one. -/
theorem find?_append_some {α : Type} (p : α → Bool) {l1 : List α} (l2 : List α)
    {x : α} (h : l1.find? p = some x) : (l1 ++ l2).find? p = some x := by
  induction l1 with
  | nil => simp [List.find?] at h
  | cons a as ih =>
    rw [List.cons_append]
    cases hpa : p a
    · simp only [List.find?, hpa] at h ⊢
      exact ih h
    · simp only [List.find?, hpa] at h ⊢
      exact h

/-- Claim C9: with strategy `auto` (or `ignore`), migrating a readable
source file whose target path does not yet exist appends exactly one
output file (holding the generated TOML), and an identical second run
returns without writing because the target now exists. -/
theorem migrate_file_auto_idempotent (fs : MigFS)
    (src_path category name tcd scope strategy : String) (content : List Char)
    (hstrat : strategy = "ignore" ∨ strategy = "auto")
    (hread : mreadFile fs src_path = some content)
    (hnew : mexists fs (tcd ++ "/" ++ category ++ "/" ++
      String.mk (pyReplace ".md".toList ".toml".toList name.toList)) = false) :
    migrate_file fs src_path category name tcd strategy scope =
      { files := fs.files ++
          [⟨tcd ++ "/" ++ category,
            String.mk (pyReplace ".md".toList ".toml".toList name.toList),
            make_toml_content content (parse_frontmatter content) src_path scope⟩],
        dirs := if fs.dirs.contains (tcd ++ "/" ++ category) then fs.dirs
                else fs.dirs ++ [tcd ++ "/" ++ category] } ∧
    migrate_file (migrate_file fs src_path category name tcd strategy scope)
        src_path category name tcd strategy scope =
      migrate_file fs src_path category name tcd strategy scope := by
  set td := tcd ++ "/" ++ category with htd
  set tn := String.mk (pyReplace ".md".toList ".toml".toList name.toList) with htn
  set tp := td ++ "/" ++ tn with htp
  set newf : MFile :=
    ⟨td, tn, make_toml_content content (parse_frontmatter content) src_path scope⟩
    with hnewf
  have hany : fs.files.any (fun f => f.dir == td && f.name == tn) = false := by
    cases hA : fs.files.any (fun f => f.dir == td && f.name == tn) with
    | false => rfl
    | true =>
      exfalso
      obtain ⟨f0, hf0mem, hf0p⟩ := List.any_eq_true.mp hA
      rw [Bool.and_eq_true, beq_iff_eq, beq_iff_eq] at hf0p
      have hpath : mfilePath f0 = tp := by
        rw [mfilePath, hf0p.1, hf0p.2]
      have hex : mexists fs tp = true := by
        have h' : fs.files.any (fun f => mfilePath f == tp) = true :=
          List.any_eq_true.mpr ⟨f0, hf0mem, by rw [hpath]; exact beq_self_eq_true _⟩
        unfold mexists
        rw [h', Bool.or_true]
      rw [hnew] at hex
      cases hex
  have h1 : migrate_file fs src_path category name tcd strategy scope =
      { files := fs.files ++ [newf],
        dirs := if fs.dirs.contains td then fs.dirs else fs.dirs ++ [td] } := by
    simp only [migrate_file, hread]
    rw [if_neg (fun hc => by rw [hnew] at hc; exact Bool.false_ne_true hc.1)]
    cases hdir : fs.dirs.contains td <;>
      simp only [hdir, Bool.false_eq_true, if_false, if_true, hany]
  refine ⟨h1, ?_⟩
  rw [h1]
  obtain ⟨f0, hf0, hf0c⟩ := Option.map_eq_some'.mp hread
  have hread2 : mreadFile
      ({ files := fs.files ++ [newf],
         dirs := if fs.dirs.contains td then fs.dirs else fs.dirs ++ [td] } : MigFS)
      src_path = some content := by
    unfold mreadFile
    rw [find?_append_some _ _ hf0, Option.map_some', hf0c]
  have hmemnew : newf ∈ (fs.files ++ [newf]) := by simp
  have hpnew : mfilePath newf = tp := rfl
  have hex1 : mexists
      ({ files := fs.files ++ [newf],
         dirs := if fs.dirs.contains td then fs.dirs else fs.dirs ++ [td] } : MigFS)
      tp = true := by
    have h' : (fs.files ++ [newf]).any (fun f => mfilePath f == tp) = true :=
      List.any_eq_true.mpr ⟨newf, hmemnew, by rw [hpnew]; exact beq_self_eq_true _⟩
    unfold mexists
    rw [h', Bool.or_true]
  simp only [migrate_file, hread2]
  rw [if_pos ⟨hex1, hstrat⟩]

/-- A concrete source tree used to witness the migration round-trip. -/
def migFSc9 : MigFS :=
  { files := [⟨"/h/.claude/commands", "hello.md",
      "---\ndescription: Hi\n---\nBody".toList⟩],
    dirs := ["/h/.claude/commands"] }

/-- Witness for C9: at a concrete source file, the second `auto` run is a
no-op on the state produced by the first run. -/
theorem migrate_file_auto_idempotent_witness :
    migrate_file
        (migrate_file migFSc9 "/h/.claude/commands/hello.md" "user_misc"
          "hello.md" "/h/.gemini/commands" "auto" "global")
        "/h/.claude/commands/hello.md" "user_misc" "hello.md"
        "/h/.gemini/commands" "auto" "global" =
      migrate_file migFSc9 "/h/.claude/commands/hello.md" "user_misc"
        "hello.md" "/h/.gemini/commands" "auto" "global" :=
  (migrate_file_auto_idempotent migFSc9 "/h/.claude/commands/hello.md"
    "user_misc" "hello.md" "/h/.gemini/commands" "global" "auto"
    "---\ndescription: Hi\n---\nBody".toList
    (Or.inr rfl) (by decide) (by decide)).2

/-! ## `cc_lookup.py`: command-content parser (`parse_command_content`) -/

/-- A frontmatter value: a plain string, or a list parsed from `[a, b]`. -/
inductive FMValue where
  | str : List Char → FMValue
  | list : List (List Char) → FMValue
deriving DecidableEq

/-- The record built by `parse_command_content`. -/
structure ParsedCommand where
  frontmatter : List (List Char × FMValue)
  body : List Char
  description : FMValue
  allowed_tools : FMValue
  argument_hint : FMValue
deriving DecidableEq

/-- Parse a frontmatter value: brackets become comma-separated lists of
stripped strings, anything else stays a plain string. -/
def parseFMValue (value : List Char) : FMValue :=
  if "[".toList.isPrefixOf value ∧ "]".toList.isSuffixOf value then
    .list ((pySplitAll ",".toList ((value.drop 1).dropLast)).map pyStrip)
  else
    .str value

/-- `m.get(k, d)` on the frontmatter association list. -/
def fmGet (fm : List (List Char × FMValue)) (k : List Char) (d : FMValue) : FMValue :=
  match fm.find? (fun p => p.1 = k) with
  | some p => p.2
  | none => d

/-- `parse_command_content` from `cc_lookup.py`: split off a `---`-delimited
frontmatter block (at most two delimiter splits), line-parse it into
`key: value` pairs, and populate the three derived fields; content without
a well-formed block is returned whole as the body. -/
def parse_command_content (content : List Char) : ParsedCommand :=
  let base : ParsedCommand := ⟨[], content, .str [], .list [], .str []⟩
  if "---".toList.isPrefixOf content then
    match pySplitSep "---".toList 2 content with
    | _ :: p1 :: p2 :: _ =>
      let frontmatter_text := pyStrip p1
      let body := pyStrip p2
      let fm := (pySplitAll "\n".toList frontmatter_text).foldl
        (fun acc line =>
          if line.contains ':' then
            match pySplitSep ":".toList 1 line with
            | k :: v :: _ => assocSet acc (pyStrip k) (parseFMValue (pyStrip v))
            | _ => acc
          else acc) []
      { frontmatter := fm
        body := body
        description := fmGet fm "description".toList (.str [])
        allowed_tools := fmGet fm "allowed-tools".toList (.list [])
        argument_hint := fmGet fm "argument-hint".toList (.str []) }
    | _ => base
  else base

/-- Claim C7: content that does not begin with the `---` delimiter, or that
splits into fewer than three parts on it, parses to the whole original
content as body with empty frontmatter and empty derived fields.  (The
function is total, so no error can be raised.) -/
theorem parse_command_content_fallback (content : List Char)
    (h : ¬ "---".toList.isPrefixOf content = true ∨
         (pySplitSep "---".toList 2 content).length < 3) :
    parse_command_content content =
      ⟨[], content, .str [], .list [], .str []⟩ := by
  unfold parse_command_content
  rcases h with h | h
  · rw [if_neg h]
  · by_cases hp : "---".toList.isPrefixOf content = true
    · rw [if_pos hp]
      cases hs : pySplitSep "---".toList 2 content with
      | nil => rfl
      | cons a t1 =>
        cases t1 with
        | nil => rfl
        | cons b t2 =>
          cases t2 with
          | nil => rfl
          | cons c t3 =>
            rw [hs] at h
            simp at h
            omega
    · rw [if_neg hp]

/-- Witness for C7 at a concrete content string with no frontmatter. -/
theorem parse_command_content_fallback_witness :
    parse_command_content "Just a body\nwith --- inside".toList =
      ⟨[], "Just a body\nwith --- inside".toList, .str [], .list [], .str []⟩ :=
  parse_command_content_fallback _ (Or.inl (by decide))

example :
    (parse_command_content "---\ndescription: X\n---\nBODY".toList).description
        = .str "X".toList ∧
    (parse_command_content "---\ndescription: X\n---\nBODY".toList).body
        = "BODY".toList := by
  decide

/-! ## `cc_lookup.py`: skill-reference extractor (`extract_skill_references`) -/

/-- ASCII semantics of the regex class `\w`. -/
def isWordChar (c : Char) : Bool := c.isAlphanum || c = '_'

/-- The regex class `[\w\-:]` from the skill pattern. -/
def isSkillChar (c : Char) : Bool := isWordChar c || c = '-' || c = ':'

/-- The regex class `[a-z]`. -/
def isLowerAZ (c : Char) : Bool := 'a' ≤ c && c ≤ 'z'

/-- Left-to-right non-overlapping scan for the pattern `/([a-z][\w\-:]+)`,
returning the captured groups, exactly as `re.findall` does: on a failed
attempt the scan advances one position; after a match it resumes past the
match.  Fuel `l.length` suffices since every step consumes a character. -/
def findSkillsFuel : Nat → List Char → List (List Char)
  | 0, _ => []
  | _ + 1, [] => []
  | n + 1, c :: rest =>
    if c = '/' then
      match rest with
      | [] => []
      | c2 :: rest2 =>
        if isLowerAZ c2 then
          let tl := rest2.takeWhile isSkillChar
          if tl.isEmpty then findSkillsFuel n rest
          else (c2 :: tl) :: findSkillsFuel n (rest2.drop tl.length)
        else findSkillsFuel n rest
    else findSkillsFuel n rest

/-- All captures of `/([a-z][\w\-:]+)` in `l`. -/
def findSkillMatches (l : List Char) : List (List Char) :=
  findSkillsFuel l.length l

/-- The `false_positives` stoplist from `extract_skill_references`. -/
def skillStoplist : List (List Char) :=
  ["dev".toList, "null".toList, "tmp".toList, "bin".toList,
   "usr".toList, "etc".toList, "var".toList, "home".toList]

/-- `extract_skill_references` from `cc_lookup.py`.  The filter reproduces
the Python expression `m not in false_positives and ':' in m or len(m) > 3`
with Python's operator precedence: `(m ∉ stoplist ∧ ':' ∈ m) ∨ len(m) > 3`. -/
def extract_skill_references (content : List Char) : List (List Char) :=
  let ms := findSkillMatches (content.map Char.toLower)
  let skills := ms.filter (fun m =>
    (!(skillStoplist.contains m) && m.contains ':') || decide (m.length > 3))
  dedupFirst skills

/-- Claim C2 fails on the code: by the precedence above, a stoplist word of
length greater than 3 passes the filter.  At the concrete content `/null`
the extractor returns the stoplist word `null`. -/
theorem extract_skill_references_stoplist_bug :
    extract_skill_references "/null".toList = ["null".toList] ∧
    "null".toList ∈ skillStoplist := by
  decide

/-! ## `cc_lookup.py`: script-reference extractor (`extract_script_references`) -/

/-- A literal regex fragment: `some c` matches exactly `c`, `none` is the
unescaped `.` wildcard matching any character. -/
def litOf (s : String) : List (Option Char) := s.toList.map some

/-- Match a literal fragment at the head of the input, returning the
consumed characters and the remainder. -/
def matchLit : List (Option Char) → List Char → Option (List Char × List Char)
  | [], l => some ([], l)
  | _ :: _, [] => none
  | p :: ps, c :: cs =>
    match p with
    | none => (matchLit ps cs).map (fun r => (c :: r.1, r.2))
    | some a =>
      if a = c then (matchLit ps cs).map (fun r => (c :: r.1, r.2)) else none

/-- Match the tail `[\w\-]+\.\w+` of the script patterns: a nonempty run of
word characters or dashes, a literal dot, a nonempty run of word
characters (both runs greedy — the following literal is outside the class,
so greediness needs no backtracking). -/
def matchNameExt (l : List Char) : Option (List Char × List Char) :=
  let run1 := l.takeWhile (fun c => isWordChar c || c = '-')
  if run1.isEmpty then none
  else
    match l.drop run1.length with
    | '.' :: rest2 =>
      let run2 := rest2.takeWhile isWordChar
      if run2.isEmpty then none
      else some (run1 ++ '.' :: run2, rest2.drop run2.length)
    | _ => none

/-- The pattern `~/.claude/scripts/[\w\-]+\.\w+` (the dot before `claude`
is an unescaped wildcard, as in the source regex). -/
def matchScript1 (l : List Char) : Option (List Char × List Char) :=
  match matchLit (litOf "~/" ++ [Option.none] ++ litOf "claude/scripts/") l with
  | none => none
  | some (pre, rest) =>
    match matchNameExt rest with
    | none => none
    | some (nm, rest2) => some (pre ++ nm, rest2)

/-- The pattern `\$HOME/.claude/scripts/[\w\-]+\.\w+`. -/
def matchScript2 (l : List Char) : Option (List Char × List Char) :=
  match matchLit (litOf "$HOME/" ++ [Option.none] ++ litOf "claude/scripts/") l with
  | none => none
  | some (pre, rest) =>
    match matchNameExt rest with
    | none => none
    | some (nm, rest2) => some (pre ++ nm, rest2)

/-- The pattern `/Users/\w+/.claude/scripts/[\w\-]+\.\w+`. -/
def matchScript3 (l : List Char) : Option (List Char × List Char) :=
  match matchLit (litOf "/Users/") l with
  | none => none
  | some (pre, rest) =>
    let run := rest.takeWhile isWordChar
    if run.isEmpty then none
    else
      match matchLit (litOf "/" ++ [Option.none] ++ litOf "claude/scripts/")
          (rest.drop run.length) with
      | none => none
      | some (mid, rest2) =>
        match matchNameExt rest2 with
        | none => none
        | some (nm, rest3) => some (pre ++ run ++ mid ++ nm, rest3)

/-- `re.findall` driver: scan left to right, non-overlapping; every match of
the script patterns consumes at least one character, so fuel `l.length`
reproduces the unbounded scan. -/
def findAllFuel (m : List Char → Option (List Char × List Char)) :
    Nat → List Char → List (List Char)
  | 0, _ => []
  | _ + 1, [] => []
  | n + 1, c :: rest =>
    match m (c :: rest) with
    | some (mt, after) => mt :: findAllFuel m n after
    | none => findAllFuel m n rest

/-- All matches of a pattern in `l`. -/
def findAllMatches (m : List Char → Option (List Char × List Char))
    (l : List Char) : List (List Char) :=
  findAllFuel m l.length l

/-- `extract_script_references` from `cc_lookup.py`: union of the three
pattern scans, de-duplicated (`list(set(...))`). -/
def extract_script_references (content : List Char) : List (List Char) :=
  dedupFirst (findAllMatches matchScript1 content
    ++ findAllMatches matchScript2 content
    ++ findAllMatches matchScript3 content)

example :
    extract_script_references
        "Run ~/.claude/scripts/do-it.sh and $HOME/.claude/scripts/x.py now".toList
      = ["~/.claude/scripts/do-it.sh".toList, "$HOME/.claude/scripts/x.py".toList] := by
  decide

/-! ## `cc_lookup.py`: filesystem and settings oracles -/

/-- Read-only filesystem oracle for the resolver.  `readOk p = none` models
an exception raised while reading an existing file; `children` is
`Path.iterdir` (entry names); `rglobMd` is `Path.rglob("*.md")` (paths
relative to the argument, in traversal order); `mtime` is `st_mtime`. -/
structure LookupFS where
  pexists : String → Bool
  isFile : String → Bool
  isDir : String → Bool
  readOk : String → Option (List Char)
  children : String → List String
  mtime : String → Int
  rglobMd : String → List String

/-- Environment oracle: home and working directory, the `enabledPlugins`
mapping read (via `load_json`, empty on any error) from each settings path,
and the parsed `installed_plugins.json` manifest — for each plugin id the
list of installations, each being `some installPath` when the entry is a
dict carrying that key and `none` otherwise. -/
structure LookupEnv where
  home : String
  cwd : String
  enabledPluginsOf : String → List (String × Bool)
  installedPlugins : List (String × List (Option String))

/-- `read_file` from `cc_lookup.py`: `None` unless the path exists and the
read succeeds. -/
def read_file (fs : LookupFS) (path : String) : Option (List Char) :=
  if fs.pexists path then fs.readOk path else none

/-- `Path.absolute()` for the paths this program handles: prepend the
working directory to a relative path. -/
def absOf (cwd p : String) : String :=
  if "/".toList.isPrefixOf p.toList then p else cwd ++ "/" ++ p

/-- The project commands directory (`./.claude/commands`; `pathlib` drops
the leading `.` segment). -/
def projectCmdDir : String := ".claude/commands"

/-- The user commands directory. -/
def userCmdDir (home : String) : String := home ++ "/.claude/commands"

/-- The four settings locations read by `get_enabled_plugins`, in order. -/
def settings_paths (home : String) : List String :=
  [".claude/settings.local.json", ".claude/settings.json",
   home ++ "/.claude/settings.local.json", home ++ "/.claude/settings.json"]

/-- `get_enabled_plugins` from `cc_lookup.py`: collect ids marked true in
any settings file, first-seen order, no duplicates. -/
def get_enabled_plugins (env : LookupEnv) : List String :=
  (settings_paths env.home).foldl (fun acc s_path =>
    (env.enabledPluginsOf s_path).foldl (fun acc2 kv =>
      if kv.2 && !(acc2.contains kv.1) then acc2 ++ [kv.1] else acc2) acc) []

/-! ## `cc_lookup.py`: plugin install-path resolution -/

/-- `Path(p).parent`: all segments but the last (`"."` when there is no
separator). -/
def pathParent (p : String) : String :=
  match (splitOnChar '/' p.toList).dropLast with
  | [] => "."
  | segs => String.mk (joinWith '/' segs)

example : pathParent "/a/b/1.2.0" = "/a/b" := by decide
example : pathParent "plain" = "." := by decide

/-- Stable insertion for a descending sort by an integer key: an element
goes before the first position whose key it reaches or exceeds. -/
def insertDescBy (key : String → Int) (x : String) : List String → List String
  | [] => [x]
  | y :: ys => if key x ≥ key y then x :: y :: ys else y :: insertDescBy key x ys

/-- Stable descending sort by key: the model of Python's
`list.sort(key=..., reverse=True)`. -/
def sortDescBy (key : String → Int) : List String → List String
  | [] => []
  | x :: xs => insertDescBy key x (sortDescBy key xs)

/-- `find_alternative_plugin_version` from `cc_lookup.py`: when the
recorded install path is stale, pick the most recently modified non-hidden
immediate subdirectory of its parent, if any. -/
def find_alternative_plugin_version (fs : LookupFS) (install_path : String) :
    Option String :=
  let parent := pathParent install_path
  if ¬ (fs.pexists parent = true) then none
  else
    let versions := (fs.children parent).filter
      (fun nm => fs.isDir (parent ++ "/" ++ nm) &&
        !(".".toList.isPrefixOf nm.toList))
    match sortDescBy (fun nm => fs.mtime (parent ++ "/" ++ nm)) versions with
    | [] => none
    | v :: _ => some (parent ++ "/" ++ v)

/-- Loop body of `get_installed_plugin_paths`: process one manifest entry.
Only a nonempty installation list whose first entry carries an
`installPath` contributes; the recorded path is kept when it exists, else
the fallback's answer, else nothing. -/
def gipp_step (fs : LookupFS) (acc : List (String × String))
    (entry : String × List (Option String)) : List (String × String) :=
  match entry.2 with
  | some install_path :: _ =>
    if fs.pexists install_path then assocSet acc entry.1 install_path
    else
      match find_alternative_plugin_version fs install_path with
      | some alternative => assocSet acc entry.1 alternative
      | none => acc
  | _ => acc

/-- `get_installed_plugin_paths` from `cc_lookup.py`: map each plugin id to
the first installation's path when it exists, else to the fallback
alternative; omit the plugin when both fail. -/
def get_installed_plugin_paths (fs : LookupFS) (env : LookupEnv) :
    List (String × String) :=
  env.installedPlugins.foldl (gipp_step fs) []

/-! ## `cc_lookup.py`: directory probing, listing, and the orchestrator -/

/-- `find_command_in_directory` from `cc_lookup.py`: first candidate that
exists and is a regular file. -/
def find_command_in_directory (fs : LookupFS) (base : String) :
    List String → Option String
  | [] => none
  | c :: rest =>
    if fs.pexists (base ++ "/" ++ c) && fs.isFile (base ++ "/" ++ c) then
      some (base ++ "/" ++ c)
    else find_command_in_directory fs base rest

/-- `plugin_name = plugin_id.split('@')[0]`. -/
def pluginShortName (pid : String) : String :=
  String.mk ((splitOnChar '@' pid.toList).headD [])

/-- `list_available_commands` from `cc_lookup.py`: every `*.md` under the
directory, extension stripped, optionally prefixed, separators turned into
colons. -/
def list_available_commands (fs : LookupFS) (base : String) (pfx : String) :
    List String :=
  if ¬ (fs.pexists base = true) then []
  else (fs.rglobMd base).map (fun rel =>
    let nm := String.mk (rel.toList.take (rel.toList.length - 3))
    let nm2 := if pfx ≠ "" then pfx ++ ":" ++ nm else nm
    String.mk (pyReplace "/".toList ":".toList nm2.toList))

/-- `collect_available_commands` from `cc_lookup.py`. -/
def collect_available_commands (fs : LookupFS) (home : String)
    (enabled : List String) (installed : List (String × String)) :
    List (String × String) :=
  ((list_available_commands fs projectCmdDir "").map (fun c => (c, "project")))
  ++ ((list_available_commands fs (userCmdDir home) "").map (fun c => (c, "user")))
  ++ enabled.foldl (fun acc pid =>
      match assocLookup installed pid with
      | none => acc
      | some p => acc ++ (list_available_commands fs (p ++ "/commands")
          (pluginShortName pid)).map (fun c => (c, "plugin:" ++ pid))) []

/-- `resolve_script_content` from `cc_lookup.py`: expand `~` and `$HOME`,
then read; empty or unreadable content yields nothing. -/
def resolve_script_content (fs : LookupFS) (home : String) (script : List Char) :
    Option (String × List Char) :=
  let resolved := pyReplace "$HOME".toList home.toList
    (pyReplace "~".toList home.toList script)
  let path := String.mk resolved
  match read_file fs path with
  | some content => if content.isEmpty then none else some (path, content)
  | none => none

/-- The `resolved_scripts` loop inside `build_result`: keep, in order, the
references that resolve. -/
def resolve_all_scripts (fs : LookupFS) (home : String)
    (scripts : List (List Char)) : List (List Char × String × List Char) :=
  scripts.foldl (fun acc script =>
    match resolve_script_content fs home script with
    | some pc => acc ++ [(script, pc)]
    | none => acc) []

/-- Outcome of `find_command`: the three result dictionaries the script can
print (success, found-but-unreadable, not-found). -/
inductive FindResult where
  | foundR (path source : String) (content : List Char) (parsed : ParsedCommand)
      (referenced_scripts : List (List Char × String × List Char))
      (referenced_skills : List (List Char))
      (locations_searched : List String)
  | errorR (search_query : String) (candidates_checked : List String)
      (locations_searched : List String) (error : String)
  | notFoundR (search_query : String) (candidates_checked : List String)
      (locations_searched : List String)
      (available_commands : List (String × String))
deriving DecidableEq

/-- `build_result` from `cc_lookup.py`.  Note the Python guard is
`if not content:`, which takes the error branch when the read returns
`None` **or** an empty string. -/
def build_result (fs : LookupFS) (home cwd : String)
    (found_path source query : String) (cands : List String)
    (locs : List String) : FindResult :=
  match read_file fs found_path with
  | none =>
    .errorR query cands locs
      ("Found command at " ++ found_path ++ " but failed to read content")
  | some content =>
    if content.isEmpty then
      .errorR query cands locs
        ("Found command at " ++ found_path ++ " but failed to read content")
    else
      .foundR (absOf cwd found_path) source content (parse_command_content content)
        (resolve_all_scripts fs home (extract_script_references content))
        (extract_skill_references content) locs

/-- The plugin-scanning loop of `find_command` (its third phase), with the
accumulated `locations_searched` made explicit. -/
def plugin_loop (fs : LookupFS) (env : LookupEnv) (cmd_name : String)
    (cands : List String) (enabled_all : List String)
    (installed : List (String × String)) :
    List String → List String → FindResult
  | locs, [] =>
    .notFoundR cmd_name cands locs
      (collect_available_commands fs env.home enabled_all installed)
  | locs, plugin_id :: rest =>
    match assocLookup installed plugin_id with
    | none => plugin_loop fs env cmd_name cands enabled_all installed locs rest
    | some ppath =>
      match find_command_in_directory fs (ppath ++ "/commands") cands with
      | some fp =>
        build_result fs env.home env.cwd fp ("plugin:" ++ plugin_id)
          cmd_name cands (locs ++ [ppath ++ "/commands"])
      | none =>
        plugin_loop fs env cmd_name cands enabled_all installed
          (locs ++ [ppath ++ "/commands"]) rest

/-- The candidate relative paths probed for a command name (the
`cmd_candidates` local of `find_command`, as `String`s). -/
def cmdCandidates (cmd_name : String) : List String :=
  (normalize_command_name cmd_name.toList).map String.mk

/-- `find_command` from `cc_lookup.py`: probe project, then user, then each
enabled plugin in order, building the result at the first hit. -/
def find_command (fs : LookupFS) (env : LookupEnv) (cmd_name : String) :
    FindResult :=
  let cmd_candidates := cmdCandidates cmd_name
  let locs0 := [absOf env.cwd projectCmdDir]
  match find_command_in_directory fs projectCmdDir cmd_candidates with
  | some fp =>
    build_result fs env.home env.cwd fp "project" cmd_name cmd_candidates locs0
  | none =>
    match find_command_in_directory fs (userCmdDir env.home) cmd_candidates with
    | some fp =>
      build_result fs env.home env.cwd fp "user" cmd_name cmd_candidates
        (locs0 ++ [userCmdDir env.home])
    | none =>
      plugin_loop fs env cmd_name cmd_candidates (get_enabled_plugins env)
        (get_installed_plugin_paths fs env) (locs0 ++ [userCmdDir env.home])
        (get_enabled_plugins env)

/-- Claim C4 (amended): once a candidate file has been found,
`build_result` yields the error result — carrying the descriptive message
and still reporting the locations searched — exactly when the read fails
OR yields empty content (Python's `if not content:`); whenever the read
succeeds with non-empty content the result is `found` with the content,
the parsed command and the extracted references. -/
theorem build_result_cases (fs : LookupFS)
    (home cwd found_path source query : String)
    (cands locs : List String) :
    (read_file fs found_path = none →
      build_result fs home cwd found_path source query cands locs =
        .errorR query cands locs
          ("Found command at " ++ found_path ++ " but failed to read content")) ∧
    (read_file fs found_path = some [] →
      build_result fs home cwd found_path source query cands locs =
        .errorR query cands locs
          ("Found command at " ++ found_path ++ " but failed to read content")) ∧
    (∀ content, read_file fs found_path = some content → content ≠ [] →
      build_result fs home cwd found_path source query cands locs =
        .foundR (absOf cwd found_path) source content
          (parse_command_content content)
          (resolve_all_scripts fs home (extract_script_references content))
          (extract_skill_references content) locs) := by
  refine ⟨?_, ?_, ?_⟩
  · intro h
    unfold build_result
    rw [h]
  · intro h
    unfold build_result
    rw [h]
    rfl
  · intro content h hne
    unfold build_result
    rw [h]
    simp only [List.isEmpty_iff, hne, if_false]

/-- A filesystem with a single empty — but perfectly readable — command
file. -/
def lookupFSc4 : LookupFS :=
  { pexists := fun p => p = "/cmds/empty.md"
    isFile := fun p => p = "/cmds/empty.md"
    isDir := fun _ => false
    readOk := fun p => if p = "/cmds/empty.md" then some [] else none
    children := fun _ => []
    mtime := fun _ => 0
    rglobMd := fun _ => [] }

/-- Counterexample to claim C4 as stated: at this input the read succeeds
(returning the empty string), yet the error branch is taken — so the error
branch is NOT taken exactly when the read fails. -/
theorem build_result_error_despite_successful_read :
    read_file lookupFSc4 "/cmds/empty.md" = some [] ∧
    build_result lookupFSc4 "/h" "/w" "/cmds/empty.md" "project" "empty"
        [] ["loc"] =
      .errorR "empty" [] ["loc"]
        "Found command at /cmds/empty.md but failed to read content" := by
  refine ⟨by decide, ?_⟩
  decide

/-- A filesystem with one readable, non-empty command file. -/
def lookupFSc4b : LookupFS :=
  { pexists := fun p => p = "/cmds/hi.md"
    isFile := fun p => p = "/cmds/hi.md"
    isDir := fun _ => false
    readOk := fun p => if p = "/cmds/hi.md" then some "hello".toList else none
    children := fun _ => []
    mtime := fun _ => 0
    rglobMd := fun _ => [] }

/-- Witness for the amended C4: the found branch at a concrete readable
file, and the error branch at a concrete unreadable path. -/
theorem build_result_cases_witness :
    build_result lookupFSc4b "/h" "/w" "/cmds/hi.md" "project" "hi" [] ["loc"] =
      .foundR (absOf "/w" "/cmds/hi.md") "project" "hello".toList
        (parse_command_content "hello".toList)
        (resolve_all_scripts lookupFSc4b "/h"
          (extract_script_references "hello".toList))
        (extract_skill_references "hello".toList) ["loc"] ∧
    build_result lookupFSc4b "/h" "/w" "/cmds/gone.md" "project" "hi" [] ["loc"] =
      .errorR "hi" [] ["loc"]
        ("Found command at " ++ "/cmds/gone.md" ++ " but failed to read content") :=
  ⟨(build_result_cases lookupFSc4b "/h" "/w" "/cmds/hi.md" "project" "hi"
      [] ["loc"]).2.2 "hello".toList (by decide) (by decide),
   (build_result_cases lookupFSc4b "/h" "/w" "/cmds/gone.md" "project" "hi"
      [] ["loc"]).1 (by decide)⟩

/-! ## Lemmas for the plugin fallback (sorting, association lists) -/

theorem mem_insertDescBy (key : String → Int) (x z : String) (l : List String) :
    z ∈ insertDescBy key x l ↔ z = x ∨ z ∈ l := by
  induction l with
  | nil => simp [insertDescBy]
  | cons y ys ih =>
    simp only [insertDescBy]
    split
    · simp
    · simp only [List.mem_cons, ih]
      tauto

theorem mem_sortDescBy (key : String → Int) (z : String) (l : List String) :
    z ∈ sortDescBy key l ↔ z ∈ l := by
  induction l with
  | nil => simp [sortDescBy]
  | cons x xs ih =>
    simp only [sortDescBy, mem_insertDescBy, ih, List.mem_cons]

theorem insertDescBy_ne_nil (key : String → Int) (x : String) (l : List String) :
    insertDescBy key x l ≠ [] := by
  cases l with
  | nil => simp [insertDescBy]
  | cons y ys =>
    simp only [insertDescBy]
    split <;> simp

theorem sortDescBy_eq_nil (key : String → Int) (l : List String)
    (h : sortDescBy key l = []) : l = [] := by
  cases l with
  | nil => rfl
  | cons x xs =>
    simp only [sortDescBy] at h
    exact absurd h (insertDescBy_ne_nil key x _)

theorem sortDescBy_head_max (key : String → Int) :
    ∀ (l : List String) (v : String) (t : List String),
      sortDescBy key l = v :: t → ∀ z ∈ l, key z ≤ key v := by
  intro l
  induction l with
  | nil => intro v t h; simp [sortDescBy] at h
  | cons x xs ih =>
    intro v t h z hz
    simp only [sortDescBy] at h
    cases hs : sortDescBy key xs with
    | nil =>
      have hxs : xs = [] := sortDescBy_eq_nil key xs hs
      rw [hs] at h
      simp only [insertDescBy] at h
      injection h with h1 h2
      subst h1
      rcases List.mem_cons.mp hz with rfl | hz'
      · exact le_rfl
      · rw [hxs] at hz'
        cases hz'
    | cons y ys =>
      rw [hs] at h
      simp only [insertDescBy] at h
      split at h
      · next hge =>
        injection h with h1 h2
        subst h1
        rcases List.mem_cons.mp hz with rfl | hz'
        · exact le_rfl
        · exact le_trans (ih y ys hs z hz') hge
      · next hlt =>
        injection h with h1 h2
        subst h1
        rcases List.mem_cons.mp hz with rfl | hz'
        · exact le_of_not_le hlt
        · exact ih y ys hs z hz'

theorem assocLookup_assocSet_eq {κ ν : Type} [DecidableEq κ]
    (m : List (κ × ν)) (k : κ) (v : ν) :
    assocLookup (assocSet m k v) k = some v := by
  induction m with
  | nil => simp [assocSet, assocLookup, List.find?]
  | cons p rest ih =>
    simp only [assocSet]
    split
    · simp [assocLookup, List.find?]
    · next hne =>
      simp only [assocLookup, List.find?] at ih ⊢
      rw [decide_eq_false hne]
      exact ih

theorem assocLookup_assocSet_ne {κ ν : Type} [DecidableEq κ]
    (m : List (κ × ν)) (k : κ) (v : ν) (q : κ) (h : k ≠ q) :
    assocLookup (assocSet m k v) q = assocLookup m q := by
  induction m with
  | nil => simp [assocSet, assocLookup, List.find?, decide_eq_false h]
  | cons p rest ih =>
    simp only [assocSet]
    split
    · next heq =>
      simp only [assocLookup, List.find?, decide_eq_false h, heq]
    · simp only [assocLookup, List.find?]
      cases hpq : decide (p.1 = q)
      · simpa [hpq] using ih
      · simp [hpq]

theorem assocLookup_nil {κ ν : Type} [DecidableEq κ] (q : κ) :
    assocLookup ([] : List (κ × ν)) q = none := rfl

/-- After folding entries none of which carries the id `pid`, the lookup of
`pid` is unchanged. -/
theorem gipp_foldl_other (fs : LookupFS) :
    ∀ (entries : List (String × List (Option String)))
      (acc : List (String × String)) (pid : String),
      pid ∉ entries.map Prod.fst →
      assocLookup (entries.foldl (gipp_step fs) acc) pid = assocLookup acc pid := by
  intro entries
  induction entries with
  | nil => intro acc pid _; rfl
  | cons e rest ih =>
    intro acc pid hpid
    simp only [List.map_cons, List.mem_cons] at hpid
    push_neg at hpid
    rw [List.foldl_cons, ih _ _ hpid.2]
    unfold gipp_step
    split
    · split
      · exact assocLookup_assocSet_ne _ _ _ _ hpid.1.symm
      · split
        · exact assocLookup_assocSet_ne _ _ _ _ hpid.1.symm
        · rfl
    · rfl

/-- Claim C3: the recorded install path is used unchanged when it exists;
the fallback fires only when it is absent and returns an existing,
non-hidden immediate subdirectory of the recorded path's parent with the
most recent modification time — or nothing when the parent is missing or
has no such subdirectory; a plugin whose path and fallback both fail is
omitted from the mapping (no error is possible: the function is total). -/
theorem plugin_path_resolution (fs : LookupFS) :
    (∀ install_path alt,
      find_alternative_plugin_version fs install_path = some alt →
      ∃ nm, nm ∈ fs.children (pathParent install_path) ∧
        alt = pathParent install_path ++ "/" ++ nm ∧
        fs.isDir alt = true ∧
        ¬ ".".toList.isPrefixOf nm.toList = true ∧
        ∀ nm', nm' ∈ fs.children (pathParent install_path) →
          fs.isDir (pathParent install_path ++ "/" ++ nm') = true →
          ¬ ".".toList.isPrefixOf nm'.toList = true →
          fs.mtime (pathParent install_path ++ "/" ++ nm') ≤ fs.mtime alt) ∧
    ((∀ q, fs.isDir q = true → fs.pexists q = true) →
      ∀ install_path alt,
        find_alternative_plugin_version fs install_path = some alt →
        fs.pexists alt = true) ∧
    (∀ install_path, fs.pexists (pathParent install_path) = false →
      find_alternative_plugin_version fs install_path = none) ∧
    (∀ install_path,
      (fs.children (pathParent install_path)).filter
        (fun nm => fs.isDir (pathParent install_path ++ "/" ++ nm) &&
          !(".".toList.isPrefixOf nm.toList)) = [] →
      find_alternative_plugin_version fs install_path = none) ∧
    (∀ (env : LookupEnv) (pre : List (String × List (Option String)))
        (pid : String) (installs : List (Option String))
        (post : List (String × List (Option String))),
      env.installedPlugins = pre ++ (pid, installs) :: post →
      pid ∉ pre.map Prod.fst → pid ∉ post.map Prod.fst →
      assocLookup (get_installed_plugin_paths fs env) pid =
        match installs with
        | some p :: _ =>
          if fs.pexists p then some p
          else find_alternative_plugin_version fs p
        | _ => none) := by
  have parta : ∀ install_path alt,
      find_alternative_plugin_version fs install_path = some alt →
      ∃ nm, nm ∈ fs.children (pathParent install_path) ∧
        alt = pathParent install_path ++ "/" ++ nm ∧
        fs.isDir alt = true ∧
        ¬ ".".toList.isPrefixOf nm.toList = true ∧
        ∀ nm', nm' ∈ fs.children (pathParent install_path) →
          fs.isDir (pathParent install_path ++ "/" ++ nm') = true →
          ¬ ".".toList.isPrefixOf nm'.toList = true →
          fs.mtime (pathParent install_path ++ "/" ++ nm') ≤ fs.mtime alt := by
    intro ip alt h
    simp only [find_alternative_plugin_version] at h
    split at h
    · cases h
    · split at h
      · cases h
      · next v rest hsort =>
        injection h with h'
        subst h'
        have hvmem : v ∈ (fs.children (pathParent ip)).filter
            (fun nm => fs.isDir (pathParent ip ++ "/" ++ nm) &&
              !(".".toList.isPrefixOf nm.toList)) := by
          have hv : v ∈ sortDescBy
              (fun nm => fs.mtime (pathParent ip ++ "/" ++ nm))
              ((fs.children (pathParent ip)).filter
                (fun nm => fs.isDir (pathParent ip ++ "/" ++ nm) &&
                  !(".".toList.isPrefixOf nm.toList))) := by
            rw [hsort]
            exact List.mem_cons_self _ _
          exact (mem_sortDescBy _ _ _).mp hv
        rw [List.mem_filter, Bool.and_eq_true] at hvmem
        obtain ⟨hvch, hvdir, hvnp⟩ := hvmem
        rw [Bool.not_eq_true'] at hvnp
        refine ⟨v, hvch, rfl, hvdir, by rw [hvnp]; simp, ?_⟩
        intro nm' hmem hdir hnp
        have hmf : nm' ∈ (fs.children (pathParent ip)).filter
            (fun nm => fs.isDir (pathParent ip ++ "/" ++ nm) &&
              !(".".toList.isPrefixOf nm.toList)) := by
          rw [List.mem_filter, Bool.and_eq_true]
          refine ⟨hmem, hdir, ?_⟩
          rw [Bool.not_eq_true']
          exact Bool.not_eq_true _ ▸ hnp
        exact sortDescBy_head_max _ _ v rest hsort nm' hmf
  refine ⟨parta, ?_, ?_, ?_, ?_⟩
  · intro hcoh ip alt h
    obtain ⟨nm, -, -, hdir, -, -⟩ := parta ip alt h
    exact hcoh alt hdir
  · intro ip hpe
    simp only [find_alternative_plugin_version]
    rw [if_pos (by simp [hpe])]
  · intro ip hfil
    simp only [find_alternative_plugin_version]
    split
    · rfl
    · rw [hfil]
      rfl
  · intro env pre pid installs post hsplit hpre hpost
    unfold get_installed_plugin_paths
    rw [hsplit, List.foldl_append, List.foldl_cons]
    rw [gipp_foldl_other fs post _ pid hpost]
    have hacc : assocLookup (pre.foldl (gipp_step fs) []) pid = none := by
      rw [gipp_foldl_other fs pre [] pid hpre]
      rfl
    cases installs with
    | nil =>
      simp only [gipp_step]
      exact hacc
    | cons i rest' =>
      cases i with
      | none =>
        simp only [gipp_step]
        exact hacc
      | some p =>
        simp only [gipp_step]
        by_cases hex : fs.pexists p = true
        · rw [if_pos hex, if_pos hex]
          exact assocLookup_assocSet_eq _ _ _
        · rw [if_neg hex, if_neg hex]
          cases halt : find_alternative_plugin_version fs p with
          | some a => exact assocLookup_assocSet_eq _ _ _
          | none => exact hacc

/-- A concrete plugin cache: the recorded version `1.2.0` is absent; two
sibling versions exist, `1.1.4` being the most recently modified; a hidden
directory and a plain file are also present. -/
def lookupFSc3 : LookupFS :=
  { pexists := fun p => p = "/cache/git" || p = "/cache/git/1.1.4" ||
      p = "/cache/git/2.0.0"
    isFile := fun _ => false
    isDir := fun p => p = "/cache/git/1.1.4" || p = "/cache/git/2.0.0" ||
      p = "/cache/git/.tmp"
    readOk := fun _ => none
    children := fun p =>
      if p = "/cache/git" then ["1.1.4", "2.0.0", ".tmp", "notes.txt"] else []
    mtime := fun p => if p = "/cache/git/1.1.4" then 100 else 50
    rglobMd := fun _ => [] }

/-- The manifest recording the stale path. -/
def lookupEnvc3 : LookupEnv :=
  { home := "/home/u"
    cwd := "/w"
    enabledPluginsOf := fun _ => []
    installedPlugins := [("git@mp", [some "/cache/git/1.2.0"])] }

/-- Witness for C3: the stale recorded path falls back to the most
recently modified existing sibling version. -/
theorem plugin_path_resolution_witness :
    assocLookup (get_installed_plugin_paths lookupFSc3 lookupEnvc3) "git@mp" =
      some "/cache/git/1.1.4" := by
  have h := (plugin_path_resolution lookupFSc3).2.2.2.2 lookupEnvc3 []
    "git@mp" [some "/cache/git/1.2.0"] [] rfl (by decide) (by decide)
  rw [h]
  decide

/-- A hit in the project directory short-circuits `find_command`. -/
theorem find_command_project_hit (fs : LookupFS) (env : LookupEnv)
    (cmd_name fp : String)
    (h : find_command_in_directory fs projectCmdDir (cmdCandidates cmd_name) =
      some fp) :
    find_command fs env cmd_name =
      build_result fs env.home env.cwd fp "project" cmd_name
        (cmdCandidates cmd_name) [absOf env.cwd projectCmdDir] := by
  simp only [find_command, h]

/-- Scanning the plugin list past a block of plugins that are unresolvable
or whose directories miss only extends the searched locations by the
resolvable ones' command directories. -/
theorem plugin_loop_misses (fs : LookupFS) (env : LookupEnv) (cmd_name : String)
    (cands : List String) (enabled_all : List String)
    (installed : List (String × String)) :
    ∀ (pre : List String) (locs rest : List String),
      (∀ q ∈ pre, ∀ qp, assocLookup installed q = some qp →
        find_command_in_directory fs (qp ++ "/commands") cands = none) →
      plugin_loop fs env cmd_name cands enabled_all installed locs (pre ++ rest) =
      plugin_loop fs env cmd_name cands enabled_all installed
        (locs ++ pre.filterMap
          (fun q => (assocLookup installed q).map (· ++ "/commands"))) rest := by
  intro pre
  induction pre with
  | nil =>
    intro locs rest h
    simp
  | cons q pre' ih =>
    intro locs rest h
    rw [List.cons_append]
    cases hq : assocLookup installed q with
    | none =>
      simp only [plugin_loop, hq, List.filterMap_cons]
      exact ih locs rest (fun r hr => h r (List.mem_cons_of_mem _ hr))
    | some qp =>
      have hmiss := h q (List.mem_cons_self _ _) qp hq
      simp only [plugin_loop, hq, hmiss, List.filterMap_cons, Option.map_some']
      rw [ih (locs ++ [qp ++ "/commands"]) rest
        (fun r hr => h r (List.mem_cons_of_mem _ hr))]
      have harr : (locs ++ [qp ++ "/commands"]) ++ pre'.filterMap
          (fun r => (assocLookup installed r).map (· ++ "/commands")) =
          locs ++ (qp ++ "/commands") :: pre'.filterMap
          (fun r => (assocLookup installed r).map (· ++ "/commands")) := by
        simp
      rw [harr]

/-- Claim C1: `find_command` probes project, then user, then the enabled
plugins in enabled order, and returns the result built from the first
location containing a candidate match, with the recorded
`locations_searched` stopping at that location (no later directory is
probed or recorded); in particular a project hit fixes the result
regardless of the plugin configuration. -/
theorem find_command_search_order (fs : LookupFS) (env : LookupEnv)
    (cmd_name : String) :
    (∀ fp, find_command_in_directory fs projectCmdDir (cmdCandidates cmd_name) =
        some fp →
      find_command fs env cmd_name =
        build_result fs env.home env.cwd fp "project" cmd_name
          (cmdCandidates cmd_name) [absOf env.cwd projectCmdDir]) ∧
    (find_command_in_directory fs projectCmdDir (cmdCandidates cmd_name) =
        none →
      ∀ fp, find_command_in_directory fs (userCmdDir env.home)
          (cmdCandidates cmd_name) = some fp →
      find_command fs env cmd_name =
        build_result fs env.home env.cwd fp "user" cmd_name
          (cmdCandidates cmd_name)
          ([absOf env.cwd projectCmdDir] ++ [userCmdDir env.home])) ∧
    (find_command_in_directory fs projectCmdDir (cmdCandidates cmd_name) =
        none →
      find_command_in_directory fs (userCmdDir env.home)
          (cmdCandidates cmd_name) = none →
      ∀ (pre : List String) (pid : String) (post : List String)
        (ppath fp : String),
        get_enabled_plugins env = pre ++ pid :: post →
        (∀ q ∈ pre, ∀ qp,
          assocLookup (get_installed_plugin_paths fs env) q = some qp →
          find_command_in_directory fs (qp ++ "/commands")
            (cmdCandidates cmd_name) = none) →
        assocLookup (get_installed_plugin_paths fs env) pid = some ppath →
        find_command_in_directory fs (ppath ++ "/commands")
          (cmdCandidates cmd_name) = some fp →
        find_command fs env cmd_name =
          build_result fs env.home env.cwd fp ("plugin:" ++ pid) cmd_name
            (cmdCandidates cmd_name)
            ((([absOf env.cwd projectCmdDir] ++ [userCmdDir env.home]) ++
              pre.filterMap (fun q =>
                (assocLookup (get_installed_plugin_paths fs env) q).map
                  (· ++ "/commands"))) ++ [ppath ++ "/commands"])) ∧
    (∀ env' : LookupEnv, env'.home = env.home → env'.cwd = env.cwd →
      (∃ fp, find_command_in_directory fs projectCmdDir
        (cmdCandidates cmd_name) = some fp) →
      find_command fs env' cmd_name = find_command fs env cmd_name) := by
  refine ⟨?_, ?_, ?_, ?_⟩
  · intro fp h
    exact find_command_project_hit fs env cmd_name fp h
  · intro hp fp hu
    simp only [find_command, hp, hu]
  · intro hp hu pre pid post ppath fp hen hmiss hlook hhit
    simp only [find_command, hp, hu]
    rw [hen]
    rw [plugin_loop_misses fs env cmd_name (cmdCandidates cmd_name) _ _ pre _
      (pid :: post) hmiss]
    simp only [plugin_loop, hlook, hhit]
  · rintro env' hh hc ⟨fp, hfp⟩
    rw [find_command_project_hit fs env' cmd_name fp hfp,
      find_command_project_hit fs env cmd_name fp hfp, hh, hc]

/-- An environment with no enabled plugins. -/
def lookupEnvSimple : LookupEnv :=
  { home := "/home/u"
    cwd := "/w"
    enabledPluginsOf := fun _ => []
    installedPlugins := [] }

/-- A filesystem whose only command file lives in the project directory. -/
def lookupFSproj : LookupFS :=
  { pexists := fun p => p = ".claude/commands/hi.md"
    isFile := fun p => p = ".claude/commands/hi.md"
    isDir := fun _ => false
    readOk := fun p =>
      if p = ".claude/commands/hi.md" then some "project!".toList else none
    children := fun _ => []
    mtime := fun _ => 0
    rglobMd := fun _ => [] }

/-- A filesystem whose only command file lives in the user directory. -/
def lookupFSuser : LookupFS :=
  { pexists := fun p => p = "/home/u/.claude/commands/hi.md"
    isFile := fun p => p = "/home/u/.claude/commands/hi.md"
    isDir := fun _ => false
    readOk := fun p =>
      if p = "/home/u/.claude/commands/hi.md" then some "user!".toList else none
    children := fun _ => []
    mtime := fun _ => 0
    rglobMd := fun _ => [] }

/-- An environment with one enabled, installed plugin. -/
def lookupEnvPlug : LookupEnv :=
  { home := "/home/u"
    cwd := "/w"
    enabledPluginsOf := fun p =>
      if p = ".claude/settings.local.json" then [("p1@m", true)] else []
    installedPlugins := [("p1@m", [some "/plug/p1/1.0"])] }

/-- A filesystem whose only command file lives in that plugin. -/
def lookupFSplug : LookupFS :=
  { pexists := fun p => p = "/plug/p1/1.0" || p = "/plug/p1/1.0/commands/hi.md"
    isFile := fun p => p = "/plug/p1/1.0/commands/hi.md"
    isDir := fun _ => false
    readOk := fun p =>
      if p = "/plug/p1/1.0/commands/hi.md" then some "plugin!".toList else none
    children := fun _ => []
    mtime := fun _ => 0
    rglobMd := fun _ => [] }

/-- Witness for C1: the three phases each resolve at concrete states. -/
theorem find_command_search_order_witness :
    (find_command lookupFSproj lookupEnvSimple "hi" =
      build_result lookupFSproj "/home/u" "/w" ".claude/commands/hi.md"
        "project" "hi" (cmdCandidates "hi") [absOf "/w" projectCmdDir]) ∧
    (find_command lookupFSuser lookupEnvSimple "hi" =
      build_result lookupFSuser "/home/u" "/w" "/home/u/.claude/commands/hi.md"
        "user" "hi" (cmdCandidates "hi")
        [absOf "/w" projectCmdDir, userCmdDir "/home/u"]) ∧
    (find_command lookupFSplug lookupEnvPlug "hi" =
      build_result lookupFSplug "/home/u" "/w" "/plug/p1/1.0/commands/hi.md"
        "plugin:p1@m" "hi" (cmdCandidates "hi")
        [absOf "/w" projectCmdDir, userCmdDir "/home/u",
          "/plug/p1/1.0/commands"]) := by
  refine ⟨?_, ?_, ?_⟩
  · exact (find_command_search_order lookupFSproj lookupEnvSimple "hi").1
      ".claude/commands/hi.md" (by decide)
  · exact (find_command_search_order lookupFSuser lookupEnvSimple "hi").2.1
      (by decide) "/home/u/.claude/commands/hi.md" (by decide)
  · exact (find_command_search_order lookupFSplug lookupEnvPlug "hi").2.2.1
      (by decide) (by decide) [] "p1@m" [] "/plug/p1/1.0"
      "/plug/p1/1.0/commands/hi.md" (by decide)
      (fun q hq => absurd hq (List.not_mem_nil q)) (by decide) (by decide)
